import Mathlib

/-!
Verification of the model-selection pipeline in
`dags/mlflow_multimodel_register_example.py`.

The embedding reifies the pure decision logic of the DAG tasks:

* `get_best_model` (source lines 195-261): the selection loop over
  training results with its zero-initialised best-so-far record, the
  metric lookups (a missing dictionary key is a Python `KeyError`,
  modelled as `Except.error`), and the typed recovery of the
  `best_`-prefixed hyperparameters.
* the bare `try: mlflow.create_experiment(...) except: pass` guard that
  appears in `train`, `get_best_model`, `build_best_model` and
  `register_model` (e.g. source lines 136-140).
* `build_best_model` (source lines 264-303): the `{**base, **over}`
  parameter merge and the final training call; the effects of that call
  (which estimator is invoked, whether it is actually fitted, which
  keyword arguments it receives) are reified in a `FinalTrainCall`
  record.
* `register_model` (source lines 306-329): registry state is modelled
  explicitly; `mlflow.register_model` appends a fresh version (numbered
  consecutively per model name, initial stage "None") and
  `transition_model_version_stage` updates the stage of the matching
  version.  The Python task body has no `return` statement, so its
  value is `None`, modelled as `none`.

Numeric metric values are modelled as rationals (the Python floats are
only compared and copied, never rounded, so exact arithmetic is a
faithful model of the comparisons performed).  `float(...)` applied to
a parameter string is modelled by `pyFloat`, a decimal/scientific
notation parser into `ℚ` (`ValueError` on anything else); `str.isdigit`
and `int(...)` are modelled on ASCII digit strings.
-/

/-- A `{run_id, model_type}` pair as returned by the `train` task
(source line 187). -/
structure RunInfo where
  run_id : String
  model_type : String
deriving DecidableEq

/-- The data of a tracked run as seen through
`mlflow.get_run(id).data.to_dictionary()`: a metrics dictionary and a
params dictionary (params are string-encoded). -/
structure RunData where
  metrics : List (String × ℚ)
  params : List (String × String)
deriving DecidableEq

/-- The tracking backend: a partial map from run id to run data.
`none` means `mlflow.get_run` raises. -/
def Tracker : Type := String → Option RunData

/-- Python dictionary lookup on an association list (first match). -/
def dictLookup {α : Type} : List (String × α) → String → Option α
  | [], _ => none
  | kv :: rest, key => if kv.1 = key then some kv.2 else dictLookup rest key

/-- The first option when present, else the fallback (used to state
dictionary-merge lookups without bare match expressions). -/
def orFallback {α : Type} (o fallback : Option α) : Option α :=
  match o with
  | some v => some v
  | none => fallback

/-- A tracker built from an explicit association list of runs. -/
def trackerOf (l : List (String × RunData)) : Tracker :=
  fun id => dictLookup l id

/-- The mutable `best` dictionary of `get_best_model`
(source lines 211-216). -/
structure Best where
  run_id : String
  model : String
  auc_score : ℚ
  accuracy : ℚ
deriving DecidableEq

/-- The initial best-so-far record: empty run id and model, both
metrics zero (source lines 211-216). -/
def initBest : Best := ⟨"", "", 0, 0⟩

/-- One iteration of the selection loop (source lines 218-240):
fetch the run, read `test_auc_score` and `accuracy` (KeyError if
absent), and replace the best-so-far on strictly greater AUC, or on
equal AUC and strictly greater accuracy. -/
def selStep (tracker : Tracker) (best : Best) (ri : RunInfo) : Except String Best :=
  match tracker ri.run_id with
  | none => Except.error ("Run with id=" ++ ri.run_id ++ " not found")
  | some rd =>
    match dictLookup rd.metrics "test_auc_score" with
    | none => Except.error "KeyError: test_auc_score"
    | some auc =>
      match dictLookup rd.metrics "accuracy" with
      | none => Except.error "KeyError: accuracy"
      | some acc =>
        if auc > best.auc_score then
          Except.ok ⟨ri.run_id, ri.model_type, auc, acc⟩
        else if auc = best.auc_score ∧ acc > best.accuracy then
          Except.ok ⟨ri.run_id, ri.model_type, auc, acc⟩
        else
          Except.ok best

/-- The selection loop from a given best-so-far record. -/
def selectLoopFrom (tracker : Tracker) (best : Best) : List RunInfo → Except String Best
  | [] => Except.ok best
  | ri :: rest =>
    match selStep tracker best ri with
    | Except.error e => Except.error e
    | Except.ok b => selectLoopFrom tracker b rest

/-- The whole selection loop of `get_best_model`
(source lines 211-240). -/
def selectLoop (tracker : Tracker) (run_ids : List RunInfo) : Except String Best :=
  selectLoopFrom tracker initBest run_ids

/-- A typed hyperparameter value, as produced by the coercions in
`get_best_model` (source lines 248-256) or appearing in the fixed base
defaults of `build_best_model`. -/
inductive PValue
  | pint (n : Int)
  | pfloat (q : ℚ)
  | pstr (s : String)
  | plist (l : List String)
deriving DecidableEq

/-- Numeric value of a list of ASCII digits (the value of Python
`int(...)` on a string accepted by `str.isdigit`). -/
def digitsVal (s : List Char) : Nat :=
  s.foldl (fun n c => n * 10 + (c.toNat - 48)) 0

/-- Split a character list at the first occurrence of `c`; the second
component is `none` when `c` does not occur. -/
def splitOnChar (c : Char) : List Char → List Char × Option (List Char)
  | [] => ([], none)
  | x :: xs =>
    if x = c then ([], some xs)
    else
      let r := splitOnChar c xs
      (x :: r.1, r.2)

/-- Consume an optional leading sign; `true` means negative. -/
def parseSign : List Char → Bool × List Char
  | [] => (false, [])
  | x :: xs =>
    if x = '-' then (true, xs)
    else if x = '+' then (false, xs)
    else (false, x :: xs)

/-- Exact rational value of a decimal mantissa `ip.fp`. -/
def mantissaVal (ip fp : List Char) : ℚ :=
  (digitsVal ip : ℚ) + (digitsVal fp : ℚ) / ((10 : ℚ) ^ fp.length)

/-- Model of Python `float(v)` on the strings reachable here: decimal
notation with optional sign, fraction and exponent, evaluated exactly
in `ℚ`; `none` models `ValueError`.  (Specials such as `inf`, `nan`
and underscore separators are outside the strings this pipeline
produces and are not modelled.) -/
def pyFloat (v : String) : Option ℚ :=
  let s0 := v.data.map Char.toLower
  let sgn := parseSign s0
  let m := splitOnChar 'e' sgn.2
  let ipfp := splitOnChar '.' m.1
  let ip := ipfp.1
  let fp := ipfp.2.getD []
  if ip.all Char.isDigit && fp.all Char.isDigit && !(ip.isEmpty && fp.isEmpty) then
    let mant : ℚ := mantissaVal ip fp
    let mant := if sgn.1 then -mant else mant
    match m.2 with
    | none => some mant
    | some e =>
      let esgn := parseSign e
      if !esgn.2.isEmpty && esgn.2.all Char.isDigit then
        let ev := digitsVal esgn.2
        some (if esgn.1 then mant / (10 : ℚ) ^ ev else mant * (10 : ℚ) ^ ev)
      else none
  else none

/-- Model of the Python membership test `c in s` on a string,
computed on the underlying character list. -/
def strContains (s : String) (c : Char) : Bool :=
  s.data.contains c

/-- Model of Python `s.startswith(pre)`, computed on the underlying
character lists. -/
def strStartsWith (s pre : String) : Bool :=
  pre.data.isPrefixOf s.data

/-- Model of the Python slice `s[n:]`, computed on the underlying
character list. -/
def strDrop (s : String) (n : Nat) : String :=
  ⟨s.data.drop n⟩

/-- Model of Python `str.isdigit` on the ASCII strings reachable here:
non-empty and all characters decimal digits. -/
def pyIsDigit (v : String) : Bool :=
  !v.data.isEmpty && v.data.all Char.isDigit

/-- The value coercion of `get_best_model` (source lines 251-256): a
value containing a decimal point goes through `float(...)`, else a
purely numeric value through `int(...)`, else it stays a string. -/
def coerceVal (v : String) : Except String PValue :=
  if strContains v '.' then
    match pyFloat v with
    | some q => Except.ok (PValue.pfloat q)
    | none => Except.error ("ValueError: could not convert string to float: " ++ v)
  else if pyIsDigit v then
    Except.ok (PValue.pint (Int.ofNat (digitsVal v.data)))
  else
    Except.ok (PValue.pstr v)

/-- The typed-parameter recovery loop of `get_best_model` (source
lines 244-256): keep exactly the keys with the `best_` marker, drop
the five marker characters from the key, coerce the value. -/
def coerceParams : List (String × String) → Except String (List (String × PValue))
  | [] => Except.ok []
  | kv :: rest =>
    if strStartsWith kv.1 "best_" then
      match coerceVal kv.2 with
      | Except.error e => Except.error e
      | Except.ok pv =>
        match coerceParams rest with
        | Except.error e => Except.error e
        | Except.ok tail => Except.ok ((strDrop kv.1 5, pv) :: tail)
    else coerceParams rest

/-- The tail of `get_best_model` after the selection loop (source
lines 244-261): fetch the run record of the selected run id, recover
the typed parameters, return them with the winning model type. -/
def finishBest (tracker : Tracker) (best : Best) :
    Except String (List (String × PValue) × String) :=
  match tracker best.run_id with
  | none => Except.error ("Run with id=" ++ best.run_id ++ " not found")
  | some rd =>
    match coerceParams rd.params with
    | Except.error e => Except.error e
    | Except.ok best_params => Except.ok (best_params, best.model)

/-- The `get_best_model` task (source lines 195-261). -/
def get_best_model (tracker : Tracker) (run_ids : List RunInfo) :
    Except String (List (String × PValue) × String) :=
  match selectLoop tracker run_ids with
  | Except.error e => Except.error e
  | Except.ok best => finishBest tracker best

/-- `true` exactly on `Except.error`. -/
def exceptIsErr {ε α : Type} : Except ε α → Bool
  | Except.error _ => true
  | Except.ok _ => false

/-- Resolution of one training result against the tracker: the `Best`
record the selection loop would build from it, `none` when the run or
one of the two metrics is missing. -/
def resolveRun (tracker : Tracker) (ri : RunInfo) : Option Best :=
  match tracker ri.run_id with
  | none => none
  | some rd =>
    match dictLookup rd.metrics "test_auc_score", dictLookup rd.metrics "accuracy" with
    | some auc, some acc => some ⟨ri.run_id, ri.model_type, auc, acc⟩
    | _, _ => none

/-- Resolution of a whole list of training results. -/
def resolveAll (tracker : Tracker) : List RunInfo → Option (List Best)
  | [] => some []
  | ri :: rest =>
    match resolveRun tracker ri, resolveAll tracker rest with
    | some c, some cs => some (c :: cs)
    | _, _ => none

/-- The replacement relation of the selection loop: the candidate `c`
beats the best-so-far `b` when its AUC is strictly greater, or equal
with strictly greater accuracy (source lines 229-238). -/
def bGt (c b : Best) : Prop :=
  c.auc_score > b.auc_score ∨ (c.auc_score = b.auc_score ∧ c.accuracy > b.accuracy)

instance (c b : Best) : Decidable (bGt c b) :=
  inferInstanceAs (Decidable (c.auc_score > b.auc_score ∨
    (c.auc_score = b.auc_score ∧ c.accuracy > b.accuracy)))

/-- The pure body of the selection loop on resolved candidates. -/
def selPureStep (b c : Best) : Best :=
  if bGt c b then c else b

/-- Outcome classification of `mlflow.create_experiment`: the
duplicate-name error versus any other exception. -/
inductive ExpError
  | alreadyExists
  | other (msg : String)
deriving DecidableEq

/-- The `try: mlflow.create_experiment(name) except: pass` guard that
every task repeats (source lines 136-140, 201-205, 270-274, 311-315).
`result` is the outcome of the guarded call; the bare `except:`
discards every exception. -/
def guardedCreateExperiment (result : Except ExpError Unit) : Except ExpError Unit :=
  match result with
  | Except.error _ => Except.ok ()
  | Except.ok _ => Except.ok ()

/-- Python `{**base, **over}`: the keys of `base` in order with values
overridden by `over` where present, followed by the keys of `over`
absent from `base`, in order. -/
def mergeDicts {α : Type} (base over : List (String × α)) : List (String × α) :=
  (base.map fun kv => (kv.1, (dictLookup over kv.1).getD kv.2)) ++
    over.filter fun kv => (dictLookup base kv.1).isNone

/-- The input of `build_best_model`: the output dictionary of
`get_best_model` (source line 261). -/
structure ModelParams where
  params : List (String × PValue)
  model_type : String
deriving DecidableEq

/-- A keyword-argument value in a Python call: a scalar, or a whole
dictionary passed as one object (not unpacked). -/
inductive KwArg
  | scalar (v : PValue)
  | dict (d : List (String × PValue))
deriving DecidableEq

/-- Reification of the final training call performed by
`build_best_model`: which model family is used, whether a fit/train
call actually runs, whether it runs on the entire feature table, and
the keyword arguments the estimator call receives. -/
structure FinalTrainCall where
  family : String
  fitted : Bool
  on_full_table : Bool
  kwargs : List (String × KwArg)
deriving DecidableEq

/-- Fixed base defaults of the lgbm branch (source line 289). -/
def base_params_lgbm : List (String × PValue) :=
  [("objective", PValue.pstr "binary"),
   ("metric", PValue.plist ["auc", "binary_logloss"]),
   ("boosting_type", PValue.pstr "gbdt")]

/-- Fixed base defaults of the non-boosting branch (source line 298). -/
def base_params_logreg : List (String × PValue) :=
  [("max_iter", PValue.pint 500)]

/-- The `build_best_model` task (source lines 264-303).  In the lgbm
branch `lgb.train(train_set=..., params=all_params)` trains on the
`lgb.Dataset` built from the whole feature table (source line 283)
with `all_params` as the booster parameters.  In the other branch the
source executes `LogisticRegression(params=all_params)`: the merged
dictionary is passed as the single keyword argument `params` (not
unpacked with `**`), no `.fit` is ever called, and the constructed
object is discarded; hence `fitted := false` and `on_full_table :=
false` there. -/
def build_best_model (mp : ModelParams) : FinalTrainCall :=
  if mp.model_type = "lgbm" then
    let all_params := mergeDicts base_params_lgbm mp.params
    { family := "lgbm", fitted := true, on_full_table := true,
      kwargs := [("params", KwArg.dict all_params)] }
  else
    let all_params := mergeDicts base_params_logreg mp.params
    { family := mp.model_type, fitted := false, on_full_table := false,
      kwargs := [("params", KwArg.dict all_params)] }

/-- One registered model version in the registry. -/
structure ModelVersion where
  name : String
  version : Nat
  stage : String
deriving DecidableEq

/-- The model registry: the list of registered versions in creation
order. -/
structure Registry where
  versions : List ModelVersion
deriving DecidableEq

/-- `mlflow.register_model(model_uri, name)`: appends a fresh version
of `name` (numbered consecutively, initial stage "None") and returns
it. -/
def mlflowRegisterModel (reg : Registry) (_model_uri : String) (name : String) :
    Registry × ModelVersion :=
  let v := (reg.versions.filter fun m => m.name = name).length + 1
  let mv : ModelVersion := ⟨name, v, "None"⟩
  (⟨reg.versions ++ [mv]⟩, mv)

/-- `client.transition_model_version_stage(name, version, stage)`:
sets the stage of the matching version. -/
def transitionModelVersionStage (reg : Registry) (name : String) (version : Nat)
    (stage : String) : Registry :=
  ⟨reg.versions.map fun m =>
    if m.name = name ∧ m.version = version then { m with stage := stage } else m⟩

/-- The `register_model` task (source lines 306-329): registers the
artifact of the given run under the fixed name `census_pred`,
transitions the new version to `Staging`, logs name and version, and
ends without a `return` statement, so the task returns `None`
(modelled as `none`). -/
def register_model (reg : Registry) (model_run_id : String) :
    Registry × Option (String × Nat) :=
  let r1 := mlflowRegisterModel reg ("runs:/" ++ model_run_id ++ "/model") "census_pred"
  let reg2 := transitionModelVersionStage r1.1 r1.2.name r1.2.version "Staging"
  (reg2, none)

/-- Run data with the two metrics the selection loop reads. -/
def rdOf (auc acc : ℚ) (ps : List (String × String)) : RunData :=
  ⟨[("test_auc_score", auc), ("accuracy", acc)], ps⟩

/-- Concrete tracker: two distinct runs, distinct metric pairs. -/
def wTracker : Tracker :=
  trackerOf
    [("r1", rdOf 9 3
        [("best_learning_rate", "0.5"), ("best_max_depth", "3"),
         ("best_boosting", "gbdt")]),
     ("r2", rdOf 8 9 [])]

/-- First training result of the concrete tracker. -/
def wRun1 : RunInfo := ⟨"r1", "lgbm"⟩

/-- Second training result of the concrete tracker. -/
def wRun2 : RunInfo := ⟨"r2", "logistic_regression"⟩

/-- The resolved candidates of `wTracker` on `[wRun1, wRun2]`. -/
def wCands : List Best :=
  [⟨"r1", "lgbm", 9, 3⟩, ⟨"r2", "logistic_regression", 8, 9⟩]

/-- Concrete tracker whose only run has AUC 0 and accuracy 0. -/
def zTracker : Tracker :=
  trackerOf [("r1", rdOf 0 0 [("best_num_leaves", "31")])]

/-- The training result of the zero-metric tracker. -/
def zRun : RunInfo := ⟨"r1", "lgbm"⟩

/-- Concrete tracker with two runs of exactly equal AUC and exactly
equal accuracy. -/
def tieTracker : Tracker :=
  trackerOf [("r1", rdOf 9 3 []), ("r2", rdOf 9 3 [])]

/-- First of the two exactly tied training results. -/
def tieRun1 : RunInfo := ⟨"r1", "lgbm"⟩

/-- Second of the two exactly tied training results. -/
def tieRun2 : RunInfo := ⟨"r2", "logistic_regression"⟩

/-- A tracker with no runs at all. -/
def emptyTracker : Tracker := trackerOf []

/-- Concrete tracker whose only run lacks the `test_auc_score`
metric. -/
def mTracker : Tracker := trackerOf [("r1", ⟨[("accuracy", 1)], []⟩)]

/-- The training result pointing at the metric-less run. -/
def mRun : RunInfo := ⟨"r1", "lgbm"⟩

/-- A concrete non-boosting best candidate for the finalizer. -/
def mpLogReg : ModelParams :=
  ⟨[("C", PValue.pfloat (1/2)), ("penalty", PValue.pstr "l2")], "logistic_regression"⟩

theorem bGt_irrefl (c : Best) : ¬ bGt c c := by
  rintro (h | ⟨_, h⟩) <;> exact lt_irrefl _ h

theorem bGt_trans {a b c : Best} (h1 : bGt a b) (h2 : bGt b c) : bGt a c := by
  rcases h1 with h1 | ⟨h1, h1'⟩ <;> rcases h2 with h2 | ⟨h2, h2'⟩
  · exact Or.inl (lt_trans h2 h1)
  · exact Or.inl (h2 ▸ h1)
  · exact Or.inl (h1 ▸ h2)
  · exact Or.inr ⟨h1.trans h2, lt_trans h2' h1'⟩

theorem bGt_asymm {a b : Best} (h : bGt a b) : ¬ bGt b a :=
  fun h' => bGt_irrefl a (bGt_trans h h')

theorem key_eq_of_not_bGt {a b : Best} (h1 : ¬ bGt a b) (h2 : ¬ bGt b a) :
    a.auc_score = b.auc_score ∧ a.accuracy = b.accuracy := by
  unfold bGt at h1 h2
  push_neg at h1 h2
  have hauc : a.auc_score = b.auc_score := le_antisymm h1.1 h2.1
  exact ⟨hauc, le_antisymm (h1.2 hauc) (h2.2 hauc.symm)⟩

theorem not_bGt_elim {a b : Best} (h : ¬ bGt a b) :
    a.auc_score ≤ b.auc_score ∧ (a.auc_score = b.auc_score → a.accuracy ≤ b.accuracy) := by
  unfold bGt at h
  push_neg at h
  exact h

/-- Characterisation of the pure selection fold: the result is the
start record (and nothing beats it) or a list element beating the
start record that nothing in the list beats. -/
theorem selFold_spec (cs : List Best) (b : Best) :
    (cs.foldl selPureStep b = b ∧ ∀ c ∈ cs, ¬ bGt c b) ∨
    (cs.foldl selPureStep b ∈ cs ∧ bGt (cs.foldl selPureStep b) b ∧
      ∀ c ∈ cs, ¬ bGt c (cs.foldl selPureStep b)) := by
  induction cs generalizing b with
  | nil => exact Or.inl ⟨rfl, by simp⟩
  | cons c cs ih =>
    simp only [List.foldl_cons]
    by_cases h : bGt c b
    · have hstep : selPureStep b c = c := if_pos h
      rw [hstep]
      rcases ih c with ⟨heq, hall⟩ | ⟨hmem, hgt, hall⟩
      · rw [heq]
        refine Or.inr ⟨List.mem_cons_self c cs, h, ?_⟩
        intro d hd
        rcases List.mem_cons.mp hd with rfl | hd
        · exact bGt_irrefl d
        · exact hall d hd
      · refine Or.inr ⟨List.mem_cons_of_mem c hmem, bGt_trans hgt h, ?_⟩
        intro d hd
        rcases List.mem_cons.mp hd with rfl | hd
        · exact bGt_asymm hgt
        · exact hall d hd
    · have hstep : selPureStep b c = b := if_neg h
      rw [hstep]
      rcases ih b with ⟨heq, hall⟩ | ⟨hmem, hgt, hall⟩
      · rw [heq]
        refine Or.inl ⟨rfl, ?_⟩
        intro d hd
        rcases List.mem_cons.mp hd with rfl | hd
        · exact h
        · exact hall d hd
      · refine Or.inr ⟨List.mem_cons_of_mem c hmem, hgt, ?_⟩
        intro d hd
        rcases List.mem_cons.mp hd with rfl | hd
        · intro hcd
          exact h (bGt_trans hcd hgt)
        · exact hall d hd

/-- If nothing in the list beats the start record, the fold returns
the start record. -/
theorem selFold_id (cs : List Best) (b : Best) (h : ∀ c ∈ cs, ¬ bGt c b) :
    cs.foldl selPureStep b = b := by
  induction cs with
  | nil => rfl
  | cons c cs ih =>
    have hc : ¬ bGt c b := h c (List.mem_cons_self c cs)
    simp only [List.foldl_cons, selPureStep, if_neg hc]
    exact ih fun d hd => h d (List.mem_cons_of_mem c hd)

/-- A resolved step of the selection loop is the pure step. -/
theorem selStep_resolved {tracker : Tracker} {ri : RunInfo} {c : Best}
    (h : resolveRun tracker ri = some c) (b : Best) :
    selStep tracker b ri = Except.ok (selPureStep b c) := by
  unfold resolveRun at h
  cases htr : tracker ri.run_id with
  | none => simp [htr] at h
  | some rd =>
    cases hauc : dictLookup rd.metrics "test_auc_score" with
    | none => simp [htr, hauc] at h
    | some auc =>
      cases hacc : dictLookup rd.metrics "accuracy" with
      | none => simp [htr, hauc, hacc] at h
      | some acc =>
        simp only [htr, hauc, hacc, Option.some.injEq] at h
        subst h
        simp only [selStep, htr, hauc, hacc, selPureStep, bGt]
        split_ifs <;> first | rfl | tauto

/-- On a fully resolved input list the selection loop is the pure
fold over the resolved candidates. -/
theorem selectLoopFrom_resolved {tracker : Tracker} :
    ∀ {l : List RunInfo} {cands : List Best},
      resolveAll tracker l = some cands → ∀ b,
      selectLoopFrom tracker b l = Except.ok (cands.foldl selPureStep b) := by
  intro l
  induction l with
  | nil =>
    intro cands h b
    simp only [resolveAll] at h
    cases h
    rfl
  | cons ri rest ih =>
    intro cands h b
    simp only [resolveAll] at h
    cases hr : resolveRun tracker ri with
    | none => rw [hr] at h; exact absurd h (by simp)
    | some c =>
      rw [hr] at h
      cases hrest : resolveAll tracker rest with
      | none => rw [hrest] at h; exact absurd h (by simp)
      | some cs =>
        rw [hrest] at h
        simp only [Option.some.injEq] at h
        subst h
        simp only [selectLoopFrom, selStep_resolved hr b, List.foldl_cons]
        exact ih hrest (selPureStep b c)

/-- A successfully resolved list is the pointwise resolution map. -/
theorem resolveAll_eq_map {tracker : Tracker} :
    ∀ {l : List RunInfo} {cands : List Best}, resolveAll tracker l = some cands →
      (∀ ri ∈ l, (resolveRun tracker ri).isSome) ∧
      cands = l.map fun ri => (resolveRun tracker ri).getD initBest := by
  intro l
  induction l with
  | nil =>
    intro cands h
    simp only [resolveAll, Option.some.injEq] at h
    subst h
    exact ⟨by simp, rfl⟩
  | cons ri rest ih =>
    intro cands h
    simp only [resolveAll] at h
    cases hr : resolveRun tracker ri with
    | none => rw [hr] at h; exact absurd h (by simp)
    | some c =>
      rw [hr] at h
      cases hrest : resolveAll tracker rest with
      | none => rw [hrest] at h; exact absurd h (by simp)
      | some cs =>
        rw [hrest] at h
        simp only [Option.some.injEq] at h
        subst h
        obtain ⟨hall, hmap⟩ := ih hrest
        constructor
        · intro rj hj
          rcases List.mem_cons.mp hj with rfl | hj
          · simp [hr]
          · exact hall rj hj
        · simp [List.map_cons, hr, ← hmap]

/-- Conversely, pointwise resolvability resolves the whole list. -/
theorem resolveAll_of_forall {tracker : Tracker} :
    ∀ {l : List RunInfo}, (∀ ri ∈ l, (resolveRun tracker ri).isSome) →
      resolveAll tracker l =
        some (l.map fun ri => (resolveRun tracker ri).getD initBest) := by
  intro l
  induction l with
  | nil => intro _; rfl
  | cons ri rest ih =>
    intro h
    have hri := h ri (List.mem_cons_self ri rest)
    cases hr : resolveRun tracker ri with
    | none => rw [hr] at hri; exact absurd hri (by simp)
    | some c =>
      have hrest := ih fun rj hj => h rj (List.mem_cons_of_mem ri hj)
      simp [resolveAll, hr, hrest]

/-- The pure selection fold is invariant under permutation as soon as
no two distinct candidates carry exactly the same AUC and accuracy. -/
theorem selFold_perm {cs cs' : List Best} (hperm : cs.Perm cs')
    (huniq : ∀ a ∈ cs, ∀ b ∈ cs,
      a.auc_score = b.auc_score → a.accuracy = b.accuracy → a = b) :
    cs.foldl selPureStep initBest = cs'.foldl selPureStep initBest := by
  rcases selFold_spec cs initBest with ⟨heq, hall⟩ | ⟨hmem, hgt, hall⟩ <;>
    rcases selFold_spec cs' initBest with ⟨heq', hall'⟩ | ⟨hmem', hgt', hall'⟩
  · rw [heq, heq']
  · exact absurd hgt' (hall _ (hperm.mem_iff.mpr hmem'))
  · exact absurd hgt (hall' _ (hperm.mem_iff.mp hmem))
  · have hmem'' : cs'.foldl selPureStep initBest ∈ cs := hperm.mem_iff.mpr hmem'
    have h1 : ¬ bGt (cs'.foldl selPureStep initBest) (cs.foldl selPureStep initBest) :=
      hall _ hmem''
    have h2 : ¬ bGt (cs.foldl selPureStep initBest) (cs'.foldl selPureStep initBest) :=
      hall' _ (hperm.mem_iff.mp hmem)
    obtain ⟨hauc, hacc⟩ := key_eq_of_not_bGt h2 h1
    exact huniq _ hmem _ hmem'' hauc hacc

/-- Lookup in the first block of a dictionary concatenation. -/
theorem dictLookup_append {α : Type} (a b : List (String × α)) (k : String) :
    dictLookup (a ++ b) k = orFallback (dictLookup a k) (dictLookup b k) := by
  induction a with
  | nil => rfl
  | cons kv rest ih =>
    by_cases h : kv.1 = k
    · simp [dictLookup, h, orFallback]
    · simp [dictLookup, h, ih]

/-- Lookup after a value-only transformation of a dictionary. -/
theorem dictLookup_mapVal {α β : Type} (g : String → α → β) (l : List (String × α))
    (k : String) :
    dictLookup (l.map fun kv => (kv.1, g kv.1 kv.2)) k =
      (dictLookup l k).map (g k) := by
  induction l with
  | nil => rfl
  | cons kv rest ih =>
    by_cases h : kv.1 = k
    · subst h
      simp [dictLookup]
    · simp [dictLookup, h, ih]

/-- Filtering with a predicate that holds on every pair keyed `k`
leaves the lookup of `k` unchanged. -/
theorem dictLookup_filter {α : Type} (p : String × α → Bool) (l : List (String × α))
    (k : String) (h : ∀ v, p (k, v) = true) :
    dictLookup (l.filter p) k = dictLookup l k := by
  induction l with
  | nil => rfl
  | cons kv rest ih =>
    by_cases hk : kv.1 = k
    · obtain ⟨k1, v1⟩ := kv
      cases hk
      rw [List.filter_cons_of_pos (h v1)]
      simp [dictLookup]
    · cases hp : p kv with
      | true =>
        rw [List.filter_cons_of_pos hp]
        simp [dictLookup, hk, ih]
      | false =>
        rw [List.filter_cons_of_neg (by simp [hp])]
        simp [dictLookup, hk, ih]

/-- The merged dictionary behaves like the override dictionary with
the base as fallback. -/
theorem dictLookup_merge {α : Type} (base over : List (String × α)) (k : String) :
    dictLookup (mergeDicts base over) k =
      orFallback (dictLookup over k) (dictLookup base k) := by
  unfold mergeDicts
  rw [dictLookup_append, dictLookup_mapVal (fun key v => (dictLookup over key).getD v)]
  cases hb : dictLookup base k with
  | some v =>
    cases ho : dictLookup over k with
    | some w => simp [ho, orFallback]
    | none => simp [ho, orFallback]
  | none =>
    have hfil : dictLookup (over.filter fun kv => (dictLookup base kv.1).isNone) k =
        dictLookup over k := by
      apply dictLookup_filter
      intro v
      simp [hb]
    cases ho : dictLookup over k with
    | some w => simp [hfil, ho, orFallback]
    | none => simp [hfil, ho, orFallback]

/-- Every `best_`-marked pair of the run record lands, marker
stripped and value coerced, in the recovered dictionary. -/
theorem coerceParams_mem :
    ∀ {ps : List (String × String)} {out : List (String × PValue)},
      coerceParams ps = Except.ok out →
      ∀ k v, (k, v) ∈ ps → strStartsWith k "best_" = true →
        ∃ pv, coerceVal v = Except.ok pv ∧ (strDrop k 5, pv) ∈ out := by
  intro ps
  induction ps with
  | nil => intro out _ k v hm; exact absurd hm (by simp)
  | cons kv rest ih =>
    intro out h k v hm hpre
    simp only [coerceParams] at h
    rcases List.mem_cons.mp hm with heq | hm
    · cases heq
      rw [if_pos hpre] at h
      cases hcv : coerceVal v with
      | error e => rw [hcv] at h; exact absurd h (by simp)
      | ok pv =>
        rw [hcv] at h
        cases hrest : coerceParams rest with
        | error e => rw [hrest] at h; exact absurd h (by simp)
        | ok tail =>
          rw [hrest] at h
          simp only [Except.ok.injEq] at h
          subst h
          exact ⟨pv, rfl, List.mem_cons_self _ _⟩
    · by_cases hp : strStartsWith kv.1 "best_" = true
      · rw [if_pos hp] at h
        cases hcv : coerceVal kv.2 with
        | error e => rw [hcv] at h; exact absurd h (by simp)
        | ok pv =>
          rw [hcv] at h
          cases hrest : coerceParams rest with
          | error e => rw [hrest] at h; exact absurd h (by simp)
          | ok tail =>
            rw [hrest] at h
            simp only [Except.ok.injEq] at h
            subst h
            obtain ⟨pw, hpw, hmem⟩ := ih hrest k v hm hpre
            exact ⟨pw, hpw, List.mem_cons_of_mem _ hmem⟩
      · rw [if_neg hp] at h
        exact ih h k v hm hpre

/-- Every pair of the recovered dictionary comes from a
`best_`-marked pair of the run record. -/
theorem coerceParams_mem_rev :
    ∀ {ps : List (String × String)} {out : List (String × PValue)},
      coerceParams ps = Except.ok out →
      ∀ kw ∈ out, ∃ k v, (k, v) ∈ ps ∧ strStartsWith k "best_" = true ∧
        kw.1 = strDrop k 5 ∧ coerceVal v = Except.ok kw.2 := by
  intro ps
  induction ps with
  | nil =>
    intro out h kw hm
    simp only [coerceParams, Except.ok.injEq] at h
    subst h
    exact absurd hm (by simp)
  | cons kv rest ih =>
    intro out h kw hm
    simp only [coerceParams] at h
    by_cases hp : strStartsWith kv.1 "best_" = true
    · rw [if_pos hp] at h
      cases hcv : coerceVal kv.2 with
      | error e => rw [hcv] at h; exact absurd h (by simp)
      | ok pv =>
        rw [hcv] at h
        cases hrest : coerceParams rest with
        | error e => rw [hrest] at h; exact absurd h (by simp)
        | ok tail =>
          rw [hrest] at h
          simp only [Except.ok.injEq] at h
          subst h
          rcases List.mem_cons.mp hm with heq | hm
          · subst heq
            exact ⟨kv.1, kv.2, List.mem_cons_self _ _, hp, rfl, hcv⟩
          · obtain ⟨k, v, hkv, hk, hdrop, hcw⟩ := ih hrest kw hm
            exact ⟨k, v, List.mem_cons_of_mem _ hkv, hk, hdrop, hcw⟩
    · rw [if_neg hp] at h
      obtain ⟨k, v, hkv, hk, hdrop, hcw⟩ := ih h kw hm
      exact ⟨k, v, List.mem_cons_of_mem _ hkv, hk, hdrop, hcw⟩

/-- If some list element makes the selection step fail on every
best-so-far record, the whole selection loop fails. -/
theorem selectLoopFrom_err {tracker : Tracker} {ri : RunInfo}
    (hstep : ∀ b, exceptIsErr (selStep tracker b ri) = true) :
    ∀ {l : List RunInfo}, ri ∈ l → ∀ b,
      exceptIsErr (selectLoopFrom tracker b l) = true := by
  intro l
  induction l with
  | nil => intro hm; exact absurd hm (by simp)
  | cons rj rest ih =>
    intro hm b
    rcases List.mem_cons.mp hm with rfl | hm
    · have h := hstep b
      simp only [selectLoopFrom]
      cases hs : selStep tracker b ri with
      | error e => rfl
      | ok b' => rw [hs] at h; exact absurd h (by simp [exceptIsErr])
    · simp only [selectLoopFrom]
      cases hs : selStep tracker b rj with
      | error e => rfl
      | ok b' => exact ih hm b'

/-- A failing selection loop fails the whole task. -/
theorem get_best_model_err {tracker : Tracker} {run_ids : List RunInfo}
    (h : exceptIsErr (selectLoop tracker run_ids) = true) :
    exceptIsErr (get_best_model tracker run_ids) = true := by
  unfold get_best_model
  cases hs : selectLoop tracker run_ids with
  | error e => rfl
  | ok b => rw [hs] at h; exact absurd h (by simp [exceptIsErr])

/-- C1 (amended): for a non-empty list of training results whose run
records all contain `test_auc_score` and `accuracy`, and in which at
least one result beats the zero-initialised best-so-far record
(positive AUC, or zero AUC with positive accuracy), the selection loop
returns a candidate from the list whose AUC is maximal and whose
accuracy is maximal among the candidates attaining that AUC, and
`get_best_model` then finishes on that candidate. -/
theorem selector_returns_max (tracker : Tracker) (l : List RunInfo) (cands : List Best)
    (hres : resolveAll tracker l = some cands)
    (hpos : ∃ c ∈ cands, bGt c initBest) :
    ∃ b ∈ cands, selectLoop tracker l = Except.ok b ∧
      get_best_model tracker l = finishBest tracker b ∧
      ∀ c ∈ cands, c.auc_score ≤ b.auc_score ∧
        (c.auc_score = b.auc_score → c.accuracy ≤ b.accuracy) := by
  have hloop := selectLoopFrom_resolved hres initBest
  rcases selFold_spec cands initBest with ⟨heq, hall⟩ | ⟨hmem, hgt, hall⟩
  · obtain ⟨c, hc, hbc⟩ := hpos
    exact absurd hbc (hall c hc)
  · refine ⟨cands.foldl selPureStep initBest, hmem, hloop, ?_, ?_⟩
    · unfold get_best_model
      rw [show selectLoop tracker l =
        Except.ok (cands.foldl selPureStep initBest) from hloop]
    · intro c hc
      exact not_bGt_elim (hall c hc)

/-- C1 witness: the amended claim at the concrete two-run tracker. -/
theorem selector_returns_max_witness :
    ∃ b ∈ wCands, selectLoop wTracker [wRun1, wRun2] = Except.ok b ∧
      get_best_model wTracker [wRun1, wRun2] = finishBest wTracker b ∧
      ∀ c ∈ wCands, c.auc_score ≤ b.auc_score ∧
        (c.auc_score = b.auc_score → c.accuracy ≤ b.accuracy) :=
  selector_returns_max wTracker [wRun1, wRun2] wCands rfl
    ⟨⟨"r1", "lgbm", 9, 3⟩, by simp [wCands], Or.inl (by norm_num [initBest])⟩

/-- C1 counterexample: a non-empty list whose only run record carries
both metrics (AUC 0, accuracy 0); the claim says the selector returns
that result, but `get_best_model` instead fails looking up the
empty-string run id of the never-replaced best-so-far record. -/
theorem selector_returns_max_cex :
    resolveAll zTracker [zRun] = some [⟨"r1", "lgbm", 0, 0⟩] ∧
    get_best_model zTracker [zRun] = Except.error "Run with id= not found" :=
  ⟨rfl, rfl⟩

/-- C10: on a non-empty list of results all of whose resolved runs
have AUC 0 and accuracy 0, nothing ever replaces the initial
best-so-far record, so `get_best_model` proceeds to look up the run
record of the empty-string run id instead of returning any input
candidate. -/
theorem selector_all_zero (tracker : Tracker) (l : List RunInfo) (cands : List Best)
    (_hne : l ≠ []) (hres : resolveAll tracker l = some cands)
    (hzero : ∀ c ∈ cands, c.auc_score = 0 ∧ c.accuracy = 0) :
    selectLoop tracker l = Except.ok initBest ∧
    get_best_model tracker l = finishBest tracker initBest ∧
    initBest.run_id = "" := by
  have hfold : cands.foldl selPureStep initBest = initBest := by
    apply selFold_id
    intro c hc
    obtain ⟨h1, h2⟩ := hzero c hc
    have hia : initBest.auc_score = 0 := rfl
    have hic : initBest.accuracy = 0 := rfl
    rintro (hb | ⟨_, hb⟩)
    · rw [h1, hia] at hb
      exact lt_irrefl 0 hb
    · rw [h2, hic] at hb
      exact lt_irrefl 0 hb
  have hloop := selectLoopFrom_resolved hres initBest
  rw [hfold] at hloop
  refine ⟨hloop, ?_, rfl⟩
  unfold get_best_model
  rw [show selectLoop tracker l = Except.ok initBest from hloop]

/-- C10 witness: the claim at the concrete zero-metric tracker. -/
theorem selector_all_zero_witness :
    selectLoop zTracker [zRun] = Except.ok initBest ∧
    get_best_model zTracker [zRun] = finishBest zTracker initBest ∧
    initBest.run_id = "" :=
  selector_all_zero zTracker [zRun] [⟨"r1", "lgbm", 0, 0⟩] (by simp) rfl
    (by intro c hc; simp only [List.mem_singleton] at hc; subst hc; exact ⟨rfl, rfl⟩)

/-- C2 (amended): `get_best_model` is invariant under permutation of
the training-result list provided no two distinct resolved candidates
carry exactly the same AUC and exactly the same accuracy; with exact
double ties the first-seen tied candidate wins, so the outcome can
depend on the order. -/
theorem selector_perm_invariant (tracker : Tracker) (l l' : List RunInfo)
    (cands : List Best) (hres : resolveAll tracker l = some cands)
    (hperm : l.Perm l')
    (huniq : ∀ a ∈ cands, ∀ b ∈ cands,
      a.auc_score = b.auc_score → a.accuracy = b.accuracy → a = b) :
    get_best_model tracker l = get_best_model tracker l' := by
  obtain ⟨hall, hmap⟩ := resolveAll_eq_map hres
  have hall' : ∀ ri ∈ l', (resolveRun tracker ri).isSome :=
    fun ri hri => hall ri (hperm.mem_iff.mpr hri)
  have hres' := resolveAll_of_forall hall'
  have hcperm : cands.Perm (l'.map fun ri => (resolveRun tracker ri).getD initBest) := by
    rw [hmap]
    exact hperm.map _
  have h1 := selectLoopFrom_resolved hres initBest
  have h2 := selectLoopFrom_resolved hres' initBest
  have hfold := selFold_perm hcperm huniq
  unfold get_best_model
  rw [show selectLoop tracker l =
      Except.ok (cands.foldl selPureStep initBest) from h1,
    show selectLoop tracker l' =
      Except.ok ((l'.map fun ri =>
        (resolveRun tracker ri).getD initBest).foldl selPureStep initBest) from h2,
    hfold]

/-- C2 witness: the amended claim at the concrete two-run tracker with
distinct metric pairs. -/
theorem selector_perm_invariant_witness :
    get_best_model wTracker [wRun1, wRun2] = get_best_model wTracker [wRun2, wRun1] :=
  selector_perm_invariant wTracker [wRun1, wRun2] [wRun2, wRun1] wCands rfl
    (List.Perm.swap wRun2 wRun1 [])
    (by
      intro a ha b hb hauc hacc
      simp only [wCands, List.mem_cons, List.not_mem_nil, or_false] at ha hb
      rcases ha with rfl | rfl <;> rcases hb with rfl | rfl <;>
        first | rfl | (exfalso; norm_num at hauc))

/-- C2 counterexample: two results with exactly equal AUC and exactly
equal accuracy; the two processing orders give different winners, so
the outcome is not independent of the input order. -/
theorem selector_perm_cex :
    get_best_model tieTracker [tieRun1, tieRun2] = Except.ok ([], "lgbm") ∧
    get_best_model tieTracker [tieRun2, tieRun1] =
      Except.ok ([], "logistic_regression") ∧
    get_best_model tieTracker [tieRun1, tieRun2] ≠
      get_best_model tieTracker [tieRun2, tieRun1] := by
  refine ⟨rfl, rfl, ?_⟩
  intro h
  rw [show get_best_model tieTracker [tieRun1, tieRun2] =
      Except.ok ([], "lgbm") from rfl,
    show get_best_model tieTracker [tieRun2, tieRun1] =
      Except.ok ([], "logistic_regression") from rfl] at h
  simp at h

/-- C3: the typed-parameter recovery keeps exactly the `best_`-marked
keys, strips exactly the five marker characters, and coerces each
value (decimal point to float, purely numeric to int, anything else
kept as string); concretely `"0.5"` becomes the rational one half,
`"3"` the integer three, `"gbdt"` stays a string, and
`"best_max_depth"` becomes the key `"max_depth"`. -/
theorem typed_param_recovery :
    (∀ (ps : List (String × String)) (out : List (String × PValue)),
        coerceParams ps = Except.ok out →
        (∀ k v, (k, v) ∈ ps → strStartsWith k "best_" = true →
          ∃ pv, coerceVal v = Except.ok pv ∧ (strDrop k 5, pv) ∈ out) ∧
        (∀ kw ∈ out, ∃ k v, (k, v) ∈ ps ∧ strStartsWith k "best_" = true ∧
          kw.1 = strDrop k 5 ∧ coerceVal v = Except.ok kw.2))
    ∧ coerceVal "0.5" = Except.ok (PValue.pfloat (1/2))
    ∧ coerceVal "3" = Except.ok (PValue.pint 3)
    ∧ coerceVal "gbdt" = Except.ok (PValue.pstr "gbdt")
    ∧ coerceParams [("best_max_depth", "3")] =
        Except.ok [("max_depth", PValue.pint 3)] := by
  refine ⟨fun ps out h => ⟨coerceParams_mem h, coerceParams_mem_rev h⟩, ?_, rfl, rfl, rfl⟩
  have h1 : coerceVal "0.5" = Except.ok (PValue.pfloat (mantissaVal ['0'] ['5'])) := rfl
  rw [h1]
  have h2 : digitsVal ['0'] = 0 := rfl
  have h3 : digitsVal ['5'] = 5 := rfl
  unfold mantissaVal
  rw [h2, h3]
  norm_num

/-- C3 witness: the recovery property applied to the concrete record
carrying `best_max_depth = "3"`. -/
theorem typed_param_recovery_witness :
    ∃ pv, coerceVal "3" = Except.ok pv ∧
      (strDrop "best_max_depth" 5, pv) ∈ [("max_depth", PValue.pint 3)] :=
  (typed_param_recovery.1 [("best_max_depth", "3")] [("max_depth", PValue.pint 3)]
    rfl).1 "best_max_depth" "3" (by simp) rfl

/-- C4: on an empty result list nothing ever replaces the
best-so-far record, so `get_best_model` looks up the empty-string run
id; when the tracker has no run with the empty id (run ids are
nonempty), the task raises and never returns a candidate. -/
theorem selector_empty_raises (tracker : Tracker) (h : tracker "" = none) :
    get_best_model tracker [] = Except.error ("Run with id=" ++ "" ++ " not found") ∧
    ∀ out, get_best_model tracker [] ≠ Except.ok out := by
  have h1 : get_best_model tracker [] = finishBest tracker initBest := rfl
  have h2 : finishBest tracker initBest =
      Except.error ("Run with id=" ++ "" ++ " not found") := by
    unfold finishBest
    have h3 : initBest.run_id = "" := rfl
    rw [h3, h]
  refine ⟨h1.trans h2, fun out hout => ?_⟩
  rw [h1, h2] at hout
  exact Except.noConfusion hout

/-- C4 witness: the empty list against a tracker with no runs. -/
theorem selector_empty_raises_witness :
    get_best_model emptyTracker [] =
      Except.error ("Run with id=" ++ "" ++ " not found") ∧
    ∀ out, get_best_model emptyTracker [] ≠ Except.ok out :=
  selector_empty_raises emptyTracker rfl

/-- C5: if some training result resolves to a run record lacking the
`test_auc_score` metric, `get_best_model` fails with an error instead
of skipping the result or continuing with a default. -/
theorem selector_missing_metric (tracker : Tracker) (run_ids : List RunInfo)
    (ri : RunInfo) (rd : RunData) (hmem : ri ∈ run_ids)
    (hrun : tracker ri.run_id = some rd)
    (hmiss : dictLookup rd.metrics "test_auc_score" = none) :
    exceptIsErr (get_best_model tracker run_ids) = true := by
  have hstep : ∀ b, exceptIsErr (selStep tracker b ri) = true := by
    intro b
    simp only [selStep, hrun, hmiss]
    rfl
  exact get_best_model_err (selectLoopFrom_err hstep hmem initBest)

/-- C5 witness: a singleton list whose run record has an accuracy but
no `test_auc_score`. -/
theorem selector_missing_metric_witness :
    exceptIsErr (get_best_model mTracker [mRun]) = true :=
  selector_missing_metric mTracker [mRun] mRun ⟨[("accuracy", 1)], []⟩
    (by simp) rfl rfl

/-- C6 counterexample: an exception that is not the
experiment-already-exists error is also caught and discarded by the
bare `except: pass`, contradicting the claim that every other
exception propagates. -/
theorem guarded_create_cex :
    guardedCreateExperiment (Except.error (ExpError.other "connection refused")) =
      Except.ok () ∧
    ExpError.other "connection refused" ≠ ExpError.alreadyExists :=
  ⟨rfl, fun h => ExpError.noConfusion h⟩

/-- C6 (amended): the guarded experiment-creation call catches and
discards every exception, the already-exists error and all others
alike; no exception raised inside it ever propagates to the caller. -/
theorem guarded_create_discards_all (r : Except ExpError Unit) :
    guardedCreateExperiment r = Except.ok () := by
  cases r with
  | error e => rfl
  | ok u => rfl

/-- C7: the effective parameter dictionary of the finalizer is the
fixed base defaults of the winning family merged with the recovered
hyperparameters: base keys absent from the recovered parameters are
retained, keys present in both take the recovered value. -/
theorem finalizer_param_merge (mp : ModelParams) (k : String) :
    (build_best_model mp).kwargs =
      [("params", KwArg.dict (mergeDicts
        (if mp.model_type = "lgbm" then base_params_lgbm else base_params_logreg)
        mp.params))] ∧
    dictLookup (mergeDicts
        (if mp.model_type = "lgbm" then base_params_lgbm else base_params_logreg)
        mp.params) k =
      orFallback (dictLookup mp.params k) (dictLookup
        (if mp.model_type = "lgbm" then base_params_lgbm else base_params_logreg) k) := by
  constructor
  · by_cases h : mp.model_type = "lgbm" <;> simp [build_best_model, h]
  · exact dictLookup_merge _ _ _

/-- C8: at a non-boosting winner the finalizer constructs the
estimator with the whole merged dictionary as the single keyword
argument `params` (not unpacked), never calls fit, and so never
retrains on the feature table; the boosting branch does train. -/
theorem finalizer_logreg_divergence :
    (build_best_model mpLogReg).fitted = false ∧
    (build_best_model mpLogReg).on_full_table = false ∧
    (build_best_model mpLogReg).kwargs =
      [("params", KwArg.dict
        [("max_iter", PValue.pint 500),
         ("C", PValue.pfloat (1/2)), ("penalty", PValue.pstr "l2")])] ∧
    (build_best_model ⟨[], "lgbm"⟩).fitted = true :=
  ⟨rfl, rfl, rfl, rfl⟩

/-- C9 counterexample: the `register_model` task body has no return
statement, so at any concrete input it returns `none` rather than the
registered name and version pair the claim promises. -/
theorem register_model_no_return_cex :
    (register_model ⟨[]⟩ "run1").2 = none :=
  rfl

/-- C9 (amended): `register_model` registers the run artifact under
the fixed name `census_pred` as a fresh consecutively numbered
version, transitions that version to the fixed stage `Staging`, and
returns nothing (the name and version are only logged). -/
theorem register_model_stages (reg : Registry) (model_run_id : String) :
    (register_model reg model_run_id).2 = none ∧
    (register_model reg model_run_id).1.versions.getLast? =
      some ⟨"census_pred",
        (reg.versions.filter fun m => m.name = "census_pred").length + 1,
        "Staging"⟩ := by
  constructor
  · rfl
  · unfold register_model mlflowRegisterModel transitionModelVersionStage
    simp only [List.map_append, List.map_cons, List.map_nil]
    rw [List.getLast?_concat]
    simp
